import Mathlib

/-!
Verification development for the `minecraft-search` koishi plugin.

The definitions below are shallow embeddings of the TypeScript source:
  * `src/src/index.ts` — main plugin (cache, status queries, power control),
  * `src/unnamed/part_000` / `part_001` — the `mc/查服` variants
    (`removeFormatting`, `queryServer`).
Asynchronous effects are modelled by explicit state passing; HTTP calls are
modelled by oracle parameters giving the outcome of each upstream call.
Timestamps are `Int` milliseconds (JS `Date.now()`).
-/

namespace MinecraftSearch

/-! ## Server registry (`ServerConfig` in `src/src/index.ts`) -/

structure ServerConfig where
  id : Nat
  name : String
  host : String
  minekuaiInstanceId : Option String
deriving DecidableEq, Repr

/-! ## Response cache

`const cache = new Map<string, { data: any, timestamp: number }>()`
modelled as an insertion-ordered association list, with `Map.get`,
`Map.set` (replace in place or append) and the periodic sweep. -/

structure CEntry (α : Type) where
  data : α
  timestamp : Int
deriving DecidableEq, Repr

abbrev Cache (α : Type) := List (String × CEntry α)

def cacheGet {α : Type} : Cache α → String → Option (CEntry α)
  | [], _ => none
  | kv :: rest, k => if kv.1 = k then some kv.2 else cacheGet rest k

def cacheSet {α : Type} : Cache α → String → CEntry α → Cache α
  | [], k, e => [(k, e)]
  | kv :: rest, k, e => if kv.1 = k then (k, e) :: rest else kv :: cacheSet rest k e

/-- The periodic sweep (`setInterval` at the bottom of `apply`): delete every
entry with `now - value.timestamp > cacheTime * 1000`. -/
def sweepCache {α : Type} (cache : Cache α) (now : Int) (cacheTime : Nat) : Cache α :=
  cache.filter (fun kv => ! decide (now - kv.2.timestamp > (cacheTime : Int) * 1000))

/-- JS `String.prototype.trim()`: drop whitespace from both ends. -/
def jsTrim (s : String) : String :=
  ⟨((s.data.dropWhile Char.isWhitespace).reverse.dropWhile Char.isWhitespace).reverse⟩

/-- Cache key built in `getServerStatus`:
`mcstatus:${address}:${enableQuery}:${config.apiSettings.apiProvider}`. -/
def cacheKey (address : String) (enableQuery : Bool) (apiProvider : String) : String :=
  "mcstatus:" ++ address ++ ":" ++ (if enableQuery then "true" else "false") ++ ":" ++ apiProvider

/-- Core query function `getServerStatus` of `src/src/index.ts` (lines 475-522).
The HTTP call (mcstatus.io or Lazy, depending on `apiProvider`) is abstracted
by `providerResult`, the outcome the call would have.  Returns the result
(`Except` models throw) together with the cache after the call. -/
def getServerStatus {α : Type} (cache : Cache α) (now : Int) (cacheTime : Nat)
    (apiProvider : String) (providerResult : Except String α)
    (address : String) (enableQuery : Bool) (force : Bool) :
    Except String α × Cache α :=
  if jsTrim address = "" then
    (Except.error "服务器地址不能为空", cache)
  else
    let key := cacheKey address enableQuery apiProvider
    let hit : Option α :=
      if force then none
      else
        match cacheGet cache key with
        | some entry =>
          if now - entry.timestamp < (cacheTime : Int) * 1000 then some entry.data else none
        | none => none
    match hit with
    | some d => (Except.ok d, cache)
    | none =>
      match providerResult with
      | Except.ok resp => (Except.ok resp, cacheSet cache key ⟨resp, now⟩)
      | Except.error e =>
        (Except.error ("查询服务器状态失败: " ++ address ++ " (" ++ e ++ ")"), cache)

theorem cacheGet_cacheSet_self {α : Type} (c : Cache α) (k : String) (e : CEntry α) :
    cacheGet (cacheSet c k e) k = some e := by
  induction c with
  | nil => simp [cacheSet, cacheGet]
  | cons kv rest ih =>
    by_cases h : kv.1 = k
    · simp [cacheSet, cacheGet, h]
    · simp [cacheSet, cacheGet, h, ih]

/-- Claim C5: a forced status query bypasses the cache read, always calls the
provider, and on success overwrites the entry with `storedAt = now`, so a
subsequent default (non-forced) read within TTL of the forced refresh is
served from the refreshed entry. -/
theorem getServerStatus_forceRefresh_spec {α : Type} (c : Cache α) (now now2 : Int)
    (cacheTime : Nat) (api addr : String) (q : Bool) (resp : α)
    (prov2 : Except String α)
    (haddr : jsTrim addr ≠ "") :
    getServerStatus c now cacheTime api (Except.ok resp) addr q true
      = (Except.ok resp, cacheSet c (cacheKey addr q api) ⟨resp, now⟩) ∧
    cacheGet (cacheSet c (cacheKey addr q api) ⟨resp, now⟩) (cacheKey addr q api)
      = some ⟨resp, now⟩ ∧
    (now2 - now < (cacheTime : Int) * 1000 →
      getServerStatus (cacheSet c (cacheKey addr q api) ⟨resp, now⟩) now2 cacheTime api prov2
          addr q false
        = (Except.ok resp, cacheSet c (cacheKey addr q api) ⟨resp, now⟩)) := by
  refine ⟨?_, cacheGet_cacheSet_self c _ _, ?_⟩
  · simp [getServerStatus, haddr]
  · intro hfresh
    simp [getServerStatus, haddr, cacheGet_cacheSet_self, hfresh]

theorem getServerStatus_forceRefresh_spec_witness :
    getServerStatus (cacheSet ([] : Cache Nat) (cacheKey "mc.hypixel.net" true "mcstatus")
        ⟨7, 0⟩) 5 30 "mcstatus" (Except.error "down") "mc.hypixel.net" true false
      = (Except.ok 7, cacheSet ([] : Cache Nat) (cacheKey "mc.hypixel.net" true "mcstatus")
        ⟨7, 0⟩) :=
  (getServerStatus_forceRefresh_spec ([] : Cache Nat) 0 5 30 "mcstatus" "mc.hypixel.net"
    true 7 (Except.error "down") (by decide)).2.2 (by decide)

/-- Claim C9: if the provider call made by `getServerStatus` fails, the cache
is left unchanged for every key (no entry created, overwritten or deleted),
so a previously cached value that is still within TTL is returned by a
subsequent non-forced read. -/
theorem getServerStatus_providerError_spec {α : Type} (c : Cache α) (now now2 : Int)
    (cacheTime : Nat) (api addr : String) (q force : Bool) (e : String)
    (haddr : jsTrim addr ≠ "") :
    (getServerStatus c now cacheTime api (Except.error e) addr q force).2 = c ∧
    (force = true →
      (getServerStatus c now cacheTime api (Except.error e) addr q force).1
        = Except.error ("查询服务器状态失败: " ++ addr ++ " (" ++ e ++ ")")) ∧
    (∀ ent : CEntry α, cacheGet c (cacheKey addr q api) = some ent →
      now2 - ent.timestamp < (cacheTime : Int) * 1000 →
      getServerStatus c now2 cacheTime api (Except.error e) addr q false
        = (Except.ok ent.data, c)) := by
  refine ⟨?_, ?_, ?_⟩
  · by_cases hf : force
    · simp [getServerStatus, haddr, hf]
    · simp only [getServerStatus, if_neg haddr]
      simp only [if_neg hf]
      cases hg : cacheGet c (cacheKey addr q api) with
      | none => simp
      | some entry =>
        by_cases hfresh : now - entry.timestamp < (cacheTime : Int) * 1000
        · simp [hfresh]
        · simp [hfresh]
  · intro hf
    subst hf
    simp [getServerStatus, haddr]
  · intro ent hent hfresh
    simp [getServerStatus, haddr, hent, hfresh]

theorem getServerStatus_providerError_spec_witness :
    (getServerStatus [("k", (⟨3, 0⟩ : CEntry Nat))] 0 30 "mcstatus" (Except.error "boom")
      "demo.mcstatus.io" false true).2 = [("k", (⟨3, 0⟩ : CEntry Nat))] :=
  (getServerStatus_providerError_spec [("k", (⟨3, 0⟩ : CEntry Nat))] 0 0 30 "mcstatus"
    "demo.mcstatus.io" false true "boom" (by decide)).1

/-- Claim C7 (amended): the periodic sweep removes exactly the entries with
`storedAt + ttl < now` (strict): an entry is kept by the sweep iff it was in
the cache and `now ≤ storedAt + ttl`.  In particular an entry expiring
exactly at the sweep time is kept, not removed. -/
theorem sweepCache_mem_iff {α : Type} (cache : Cache α) (now : Int) (cacheTime : Nat)
    (k : String) (e : CEntry α) :
    ((k, e) ∈ sweepCache cache now cacheTime) ↔
      ((k, e) ∈ cache ∧ now ≤ e.timestamp + (cacheTime : Int) * 1000) := by
  simp only [sweepCache, List.mem_filter, Bool.not_eq_true', decide_eq_false_iff_not, not_lt]
  constructor
  · rintro ⟨hm, hc⟩
    exact ⟨hm, by omega⟩
  · rintro ⟨hm, hc⟩
    exact ⟨hm, by omega⟩

/-- Claim C7 counterexample: an entry whose `storedAt + ttl` equals the sweep
time (`0 + 1 * 1000 ≤ 1000`) is claimed removed, but the sweep keeps it. -/
theorem sweepCache_boundary_cex :
    ((0 : Int) + (1 : Nat) * 1000 ≤ 1000) ∧
    sweepCache [("k", (⟨0, 0⟩ : CEntry Nat))] 1000 1 = [("k", (⟨0, 0⟩ : CEntry Nat))] := by
  constructor
  · decide
  · rfl

/-! ## Formatting stripper (`removeFormatting` in `src/unnamed/part_000`)

`str.replace(/§[0-9a-fk-or]/g, '')`: a single left-to-right scan removing
non-overlapping matches of a `§` followed by one hex-digit-or-style code. -/

/-- Character class `[0-9a-fk-or]` of the stripping regex. -/
def isStyleCode (c : Char) : Bool :=
  ('0' ≤ c && c ≤ '9') || ('a' ≤ c && c ≤ 'f') || ('k' ≤ c && c ≤ 'o') || c == 'r'

/-- The global-replace scan of `/§[0-9a-fk-or]/g` with empty replacement:
at each position, if the regex matches, drop the two matched characters and
continue after them; otherwise emit the character and continue at the next. -/
def stripFormatting : List Char → List Char
  | [] => []
  | [c] => [c]
  | c :: d :: rest =>
    if c == '§' && isStyleCode d then stripFormatting rest
    else c :: stripFormatting (d :: rest)

def removeFormatting (s : String) : String :=
  ⟨stripFormatting s.data⟩

/-- Whether the text still contains a `§` immediately followed by a style
code (the property the spec asserts is absent after stripping). -/
def hasFmtSeq : List Char → Bool
  | [] => false
  | [_] => false
  | c :: d :: rest => (c == '§' && isStyleCode d) || hasFmtSeq (d :: rest)

/-- No two adjacent `§` characters occur in the text. -/
def noAdjacentSections : List Char → Bool
  | [] => true
  | [_] => true
  | c :: d :: rest => !(c == '§' && d == '§') && noAdjacentSections (d :: rest)

theorem noAdjacentSections_tail (c : Char) (l : List Char)
    (h : noAdjacentSections (c :: l) = true) : noAdjacentSections l = true := by
  cases l with
  | nil => rfl
  | cons d rest =>
    simp only [noAdjacentSections, Bool.and_eq_true] at h
    exact h.2

theorem stripFormatting_cons_ne (c : Char) (l : List Char) (h : (c == '§') = false) :
    stripFormatting (c :: l) = c :: stripFormatting l := by
  cases l with
  | nil => rfl
  | cons d rest =>
    simp only [stripFormatting, h, Bool.false_and, Bool.false_eq_true, if_false]

theorem stripFormatting_noFmt_aux (n : Nat) :
    ∀ l : List Char, l.length ≤ n → noAdjacentSections l = true →
      hasFmtSeq (stripFormatting l) = false := by
  induction n with
  | zero =>
    intro l hlen _
    have : l = [] := List.eq_nil_of_length_eq_zero (Nat.le_zero.mp hlen)
    subst this
    rfl
  | succ n ih =>
    intro l hlen hadj
    match l with
    | [] => rfl
    | [c] => rfl
    | c :: d :: rest =>
      by_cases hm : (c == '§' && isStyleCode d) = true
      · -- the scan removes the pair and continues after it
        have hrest : rest.length ≤ n := by
          simp only [List.length_cons] at hlen
          omega
        have hadjr : noAdjacentSections rest = true :=
          noAdjacentSections_tail d rest (noAdjacentSections_tail c (d :: rest) hadj)
        simp only [stripFormatting, hm, if_true]
        exact ih rest hrest hadjr
      · -- no match at this position: emit `c`, rescan from `d`
        have hlen2 : (d :: rest).length ≤ n := by
          simp only [List.length_cons] at hlen ⊢
          omega
        have hadj2 : noAdjacentSections (d :: rest) = true :=
          noAdjacentSections_tail c (d :: rest) hadj
        have htail : hasFmtSeq (stripFormatting (d :: rest)) = false := ih _ hlen2 hadj2
        simp only [stripFormatting, hm, if_false]
        by_cases hc : (c == '§') = true
        · -- then `d` is not a style code, and (no adjacent `§§`) `d ≠ §`,
          -- so the rescan emits `d` first and the new pair `(c, d)` is clean
          have hd : (d == '§') = false := by
            cases h : (d == '§') with
            | false => rfl
            | true =>
              exfalso
              simp only [noAdjacentSections, hc, h, Bool.and_self, Bool.not_true,
                Bool.false_and, Bool.false_eq_true] at hadj
          have hds : isStyleCode d = false := by
            cases h : isStyleCode d with
            | false => rfl
            | true => exact absurd (by simp [hc, h]) hm
          rw [stripFormatting_cons_ne d rest hd] at htail ⊢
          simp only [hasFmtSeq, hc, hds, Bool.and_false, Bool.false_or]
          exact htail
        · -- `c` is not `§`: the emitted pair is clean whatever comes next
          have hc' : (c == '§') = false := Bool.eq_false_iff.mpr (by simpa using hc)
          cases hs : stripFormatting (d :: rest) with
          | nil => rfl
          | cons y ys =>
            rw [hs] at htail
            simp only [hasFmtSeq, hc', Bool.false_and, Bool.false_or]
            exact htail

/-- Claim C6 (amended): for every input in which no `§` is immediately
followed by another `§`, the output of `removeFormatting`'s scan contains no
`§` followed by a style code.  (For inputs with adjacent `§§` the single
left-to-right pass can juxtapose a surviving `§` with a style code.) -/
theorem stripFormatting_no_fmt_of_noAdjacent (l : List Char)
    (h : noAdjacentSections l = true) :
    hasFmtSeq (stripFormatting l) = false :=
  stripFormatting_noFmt_aux l.length l (Nat.le_refl _) h

theorem stripFormatting_no_fmt_of_noAdjacent_witness :
    noAdjacentSections ['§', 'a', 'x', '§', 'r', '7'] = true ∧
    hasFmtSeq (stripFormatting ['§', 'a', 'x', '§', 'r', '7']) = false :=
  ⟨by decide, stripFormatting_no_fmt_of_noAdjacent ['§', 'a', 'x', '§', 'r', '7'] (by decide)⟩

/-- Claim C6 counterexample: on input `"§§aa"` (adjacent/overlapping escape
sequences) the stripper leaves `"§a"`, which still contains a `§` followed
by the style code `a` — the claimed property fails. -/
theorem removeFormatting_adjacent_cex :
    stripFormatting ['§', '§', 'a', 'a'] = ['§', 'a'] ∧
    hasFmtSeq (stripFormatting ['§', '§', 'a', 'a']) = true ∧
    removeFormatting (String.mk ['§', '§', 'a', 'a']) = String.mk ['§', 'a'] := by
  refine ⟨by decide, by decide, ?_⟩
  rfl

/-! ## Canonical status and the Lazy API adapter
(`transformLazyResponse` in `src/src/index.ts`, lines 553-592) -/

structure PlayerEntry where
  name_clean : String
deriving DecidableEq, Repr

structure PlayersInfo where
  online : Nat
  max : Nat
  list : List PlayerEntry
deriving DecidableEq, Repr

structure VersionInfo where
  name_clean : String
  protocol : Nat
deriving DecidableEq, Repr

structure MotdInfo where
  clean : String
deriving DecidableEq, Repr

structure ServerStatus where
  online : Bool
  host : String
  version : VersionInfo
  players : PlayersInfo
  motd : MotdInfo
  icon : Option String
  software : String
  plugins : List String
  mods : List String
  retrieved_at : Int
  expires_at : Int
deriving DecidableEq, Repr

/-- One element of the Lazy response's `motd.extra` array (only its `text`
field is read). -/
structure LazyMotdItem where
  text : String
deriving DecidableEq, Repr

structure LazyMotd where
  extra : Option (List LazyMotdItem)
  text : Option String
deriving DecidableEq, Repr

structure LazyPlayer where
  name : String
deriving DecidableEq, Repr

/-- The duck-typed upstream JSON of the Lazy API; absent fields are `none`. -/
structure LazyData where
  status : Option String
  host : Option String
  version : Option String
  protocol : Option Nat
  players_online : Option Nat
  players_max : Option Nat
  players : Option (List LazyPlayer)
  motd : Option LazyMotd
  favicon : Option String
  software : Option String
  plugins : Option (List String)
  mods : Option (List String)
deriving DecidableEq, Repr

/-- JS `x || dflt` for an optional string field (`""` is falsy). -/
def strOr (v : Option String) (dflt : String) : String :=
  match v with
  | some s => if s = "" then dflt else s
  | none => dflt

/-- The strip `/§./g` used on the joined MOTD text inside
`transformLazyResponse` (`.` matches any character except a newline). -/
def stripSectionAny : List Char → List Char
  | [] => []
  | [c] => [c]
  | c :: d :: rest =>
    if c == '§' && d != '\n' then stripSectionAny rest
    else c :: stripSectionAny (d :: rest)

/-- `transformLazyResponse(lazyData, host)` of `src/src/index.ts`.
`now` stands for `Date.now()` and `cacheTime` for
`config.querySettings.cacheTime`. -/
def transformLazyResponse (lazyData : LazyData) (host : String) (now : Int)
    (cacheTime : Nat) : ServerStatus :=
  let cleanMotd : String :=
    match lazyData.motd with
    | some m =>
      match m.extra with
      | some items => ⟨stripSectionAny (String.join (items.map (fun it => it.text))).data⟩
      | none => ""
    | none => ""
  let versionName0 := strOr lazyData.version "Unknown"
  let versionName := if versionName0 = "Unknown" then "未知" else versionName0
  { online := lazyData.status == some "在线"
    host := strOr lazyData.host host
    version := { name_clean := versionName, protocol := lazyData.protocol.getD 0 }
    players :=
      { online := lazyData.players_online.getD 0
        max := lazyData.players_max.getD 0
        list := (lazyData.players.getD []).map (fun p => { name_clean := p.name }) }
    motd :=
      { clean :=
          if cleanMotd ≠ "" then cleanMotd
          else
            match lazyData.motd with
            | some m => strOr m.text "A Minecraft Server"
            | none => "A Minecraft Server" }
    icon := match lazyData.favicon with
      | some s => if s = "" then none else some s
      | none => none
    software := strOr lazyData.software ""
    plugins := lazyData.plugins.getD []
    mods := lazyData.mods.getD []
    retrieved_at := now
    expires_at := now + (cacheTime : Int) * 1000 }

/-- Claim C8 (amended): the Lazy adapter maps any upstream response whose
status field is not the "online" marker to a canonical status with
`online = false`, and it is a total function (it never raises); the other
fields, however, are populated from the upstream response or given defaults
rather than being absent. -/
theorem transformLazyResponse_offline_spec (lazyData : LazyData) (host : String)
    (now : Int) (cacheTime : Nat) (h : lazyData.status ≠ some "在线") :
    (transformLazyResponse lazyData host now cacheTime).online = false := by
  simp only [transformLazyResponse, beq_eq_false_iff_ne, ne_eq]
  exact h

theorem transformLazyResponse_offline_spec_witness :
    (transformLazyResponse
      { status := some "offline", host := none, version := some "1.20.1", protocol := none,
        players_online := none, players_max := none, players := none, motd := none,
        favicon := some "ICON", software := none, plugins := none, mods := none }
      "mc.example.org" 0 30).online = false :=
  transformLazyResponse_offline_spec
    { status := some "offline", host := none, version := some "1.20.1", protocol := none,
      players_online := none, players_max := none, players := none, motd := none,
      favicon := some "ICON", software := none, plugins := none, mods := none }
    "mc.example.org" 0 30 (by decide)

/-- Claim C8 counterexample: on an offline upstream response carrying a
`favicon` and a `version`, the adapter yields `online = false` but the
optional `icon` field is `some "ICON"` (not absent) and the version label is
carried over — "all optional fields absent" fails. -/
theorem transformLazyResponse_offline_fields_cex :
    (transformLazyResponse
      { status := some "offline", host := none, version := some "1.20.1", protocol := none,
        players_online := none, players_max := none, players := none, motd := none,
        favicon := some "ICON", software := none, plugins := none, mods := none }
      "mc.example.org" 0 30).online = false ∧
    (transformLazyResponse
      { status := some "offline", host := none, version := some "1.20.1", protocol := none,
        players_online := none, players_max := none, players := none, motd := none,
        favicon := some "ICON", software := none, plugins := none, mods := none }
      "mc.example.org" 0 30).icon = some "ICON" ∧
    (transformLazyResponse
      { status := some "offline", host := none, version := some "1.20.1", protocol := none,
        players_online := none, players_max := none, players := none, motd := none,
        favicon := some "ICON", software := none, plugins := none, mods := none }
      "mc.example.org" 0 30).version.name_clean = "1.20.1" ∧
    some "ICON" ≠ (none : Option String) := by
  refine ⟨rfl, rfl, ?_, by decide⟩
  rfl

/-! ## Status aggregator (`getAllServersStatus` in `src/src/index.ts`,
lines 278-317)

`Promise.all(config.servers.map(async server => { try  catch  }))`:
one status query per configured server; each rejection is caught inside the
mapped closure and turned into an error entry; `Promise.all` returns the
results in the order of the input array, independent of completion order. -/

structure ReportEntry where
  name : String
  online : Bool
  players : String
  version : String
  motd : String
deriving DecidableEq, Repr

/-- The body of the closure mapped over `config.servers`: the `try` branch
builds the entry from the status, the `catch` branch builds the fixed error
entry for that server only. -/
def reportEntryFor (server : ServerConfig) (res : Except String ServerStatus) : ReportEntry :=
  match res with
  | Except.ok status =>
    { name := server.name
      online := status.online
      players :=
        if status.online then
          toString status.players.online ++ "/" ++ toString status.players.max
        else "离线"
      version := if status.online then status.version.name_clean else "未知"
      motd := if status.online then status.motd.clean else "" }
  | Except.error _ =>
    { name := server.name, online := false, players := "错误", version := "未知", motd := "" }

/-- `getAllServersStatus`, with the per-server query (`getServerStatus` and
whatever it throws) abstracted by `provider`. -/
def getAllServersStatus (servers : List ServerConfig)
    (provider : ServerConfig → Except String ServerStatus) : List ReportEntry :=
  servers.map (fun s => reportEntryFor s (provider s))

/-- Claim C3 (amended): the all-servers query returns exactly one entry per
configured server, in the configured list order (which `Promise.all`
preserves independently of completion order, though it is not re-sorted by
registry id); the entry at position `i` depends only on server `i` and its
own query outcome, and a failing server yields the error entry for that
server only — errors never escape the aggregator. -/
theorem getAllServersStatus_isolation_spec (servers : List ServerConfig)
    (provider : ServerConfig → Except String ServerStatus) :
    (getAllServersStatus servers provider).length = servers.length ∧
    (∀ i : Nat, ∀ h : i < servers.length,
      (getAllServersStatus servers provider).get
          ⟨i, by simpa [getAllServersStatus] using h⟩
        = reportEntryFor (servers.get ⟨i, h⟩) (provider (servers.get ⟨i, h⟩))) ∧
    (∀ i : Nat, ∀ h : i < servers.length, ∀ e : String,
      provider (servers.get ⟨i, h⟩) = Except.error e →
      (getAllServersStatus servers provider).get
          ⟨i, by simpa [getAllServersStatus] using h⟩
        = { name := (servers.get ⟨i, h⟩).name, online := false, players := "错误",
            version := "未知", motd := "" }) := by
  refine ⟨by simp [getAllServersStatus], ?_, ?_⟩
  · intro i h
    simp [getAllServersStatus]
  · intro i h e he
    simp only [List.get_eq_getElem] at he
    simp [getAllServersStatus, reportEntryFor, he]

theorem getAllServersStatus_isolation_spec_witness :
    (getAllServersStatus
        [⟨1, "Hypixel", "mc.hypixel.net", none⟩, ⟨2, "Demo", "demo.mcstatus.io", none⟩]
        (fun s => if s.id = 2 then Except.error "Unreachable" else
          Except.ok
            { online := true, host := s.host,
              version := { name_clean := "1.21", protocol := 767 },
              players := { online := 3, max := 20, list := [] },
              motd := { clean := "hi" }, icon := none, software := "",
              plugins := [], mods := [], retrieved_at := 0, expires_at := 0 })).get
        ⟨1, by decide⟩
      = { name := "Demo", online := false, players := "错误", version := "未知",
          motd := "" } :=
  (getAllServersStatus_isolation_spec
    [⟨1, "Hypixel", "mc.hypixel.net", none⟩, ⟨2, "Demo", "demo.mcstatus.io", none⟩]
    (fun s => if s.id = 2 then Except.error "Unreachable" else
      Except.ok
        { online := true, host := s.host,
          version := { name_clean := "1.21", protocol := 767 },
          players := { online := 3, max := 20, list := [] },
          motd := { clean := "hi" }, icon := none, software := "",
          plugins := [], mods := [], retrieved_at := 0, expires_at := 0 })).2.2
    1 (by decide) "Unreachable" rfl

/-- Claim C3 counterexample: with servers configured in the order
`id 2, id 1`, the report follows the configured order, not ascending
registry id — the entry names come out `["beta", "alpha"]`, not the
id-ascending `["alpha", "beta"]`. -/
theorem getAllServersStatus_order_cex :
    (getAllServersStatus
        [⟨2, "beta", "b.example.org", none⟩, ⟨1, "alpha", "a.example.org", none⟩]
        (fun _ => Except.error "down")).map ReportEntry.name
      = ["beta", "alpha"] ∧
    (["beta", "alpha"] : List String) ≠ ["alpha", "beta"] := by
  refine ⟨rfl, by decide⟩

/-! ## Registry resolution for a status lookup
(`handleMcStatusCommand` in `src/src/index.ts`, lines 249-257)

`config.servers.find(s => s.name === server || s.id.toString() === server)`;
on a hit → `getServerInfo(serverConfig, ...)`, on a miss →
`getDirectServerStatus(server, ...)` (ad-hoc raw-address query). -/

/-- JS `String.prototype.toLowerCase()` (ASCII case mapping suffices for the
provider names and server names involved). -/
def jsToLowerCase (s : String) : String :=
  ⟨s.data.map Char.toLower⟩

def resolveToken (servers : List ServerConfig) (token : String) : Option ServerConfig :=
  servers.find? (fun s => s.name == token || toString s.id == token)

inductive LookupRoute where
  | registry : ServerConfig → LookupRoute
  | direct : String → LookupRoute
deriving DecidableEq, Repr

def statusLookup (servers : List ServerConfig) (token : String) : LookupRoute :=
  match resolveToken servers token with
  | some s => LookupRoute.registry s
  | none => LookupRoute.direct token

theorem find?_eq_some_first {α : Type} (p : α → Bool) (l : List α) (a : α)
    (h : l.find? p = some a) :
    ∃ l1 l2, l = l1 ++ a :: l2 ∧ p a = true ∧ ∀ x ∈ l1, p x = false := by
  induction l with
  | nil => exact absurd h (by simp)
  | cons b rest ih =>
    cases hp : p b with
    | true =>
      rw [List.find?_cons_of_pos rest hp] at h
      have hba : b = a := by simpa using h
      subst hba
      exact ⟨[], rest, rfl, hp, by simp⟩
    | false =>
      rw [List.find?_cons_of_neg rest (by simp [hp])] at h
      obtain ⟨l1, l2, heq, hpa, hall⟩ := ih h
      refine ⟨b :: l1, l2, by simp [heq], hpa, ?_⟩
      intro x hx
      rcases List.mem_cons.mp hx with hxb | hx2
      · subst hxb; exact hp
      · exact hall x hx2

theorem find?_append_first {α : Type} (p : α → Bool) (l1 : List α) (a : α) (l2 : List α)
    (hall : ∀ x ∈ l1, p x = false) (hpa : p a = true) :
    (l1 ++ a :: l2).find? p = some a := by
  induction l1 with
  | nil => simpa using List.find?_cons_of_pos l2 hpa
  | cons b rest ih =>
    have hb : p b = false := hall b (List.mem_cons_self b rest)
    simp only [List.cons_append]
    rw [List.find?_cons_of_neg _ (by simp [hb])]
    exact ih (fun x hx => hall x (List.mem_cons_of_mem b hx))

/-- Claim C2 (amended): a status-lookup token is resolved by one
left-to-right scan of the configured list, a server matching when its name
equals the token exactly (case-sensitively) or its decimal id string equals
the token; the first matching server wins (everything before it in the
configured list matches neither by name nor by id) and is queried through
the registry, and if no server matches the token is treated as a raw
address and queried directly. -/
theorem statusLookup_resolution_spec (servers : List ServerConfig) (token : String) :
    (∀ s : ServerConfig, statusLookup servers token = LookupRoute.registry s →
      ∃ l1 l2, servers = l1 ++ s :: l2 ∧ (s.name = token ∨ toString s.id = token) ∧
        ∀ x ∈ l1, x.name ≠ token ∧ toString x.id ≠ token) ∧
    (∀ (l1 : List ServerConfig) (s : ServerConfig) (l2 : List ServerConfig),
      servers = l1 ++ s :: l2 →
      (∀ x ∈ l1, x.name ≠ token ∧ toString x.id ≠ token) →
      (s.name = token ∨ toString s.id = token) →
      statusLookup servers token = LookupRoute.registry s) ∧
    ((∀ s : ServerConfig, s ∈ servers → s.name ≠ token ∧ toString s.id ≠ token) →
      statusLookup servers token = LookupRoute.direct token) := by
  refine ⟨?_, ?_, ?_⟩
  · intro s hs
    unfold statusLookup at hs
    cases hr : resolveToken servers token with
    | none => rw [hr] at hs; exact absurd hs (by simp)
    | some s0 =>
      rw [hr] at hs
      have hss : s0 = s := by
        simpa using hs
      subst hss
      unfold resolveToken at hr
      obtain ⟨l1, l2, heq, hpa, hall⟩ := find?_eq_some_first _ servers s0 hr
      refine ⟨l1, l2, heq, by simpa using hpa, ?_⟩
      intro x hx
      have := hall x hx
      simpa using this
  · intro l1 s l2 heq hall hpa
    subst heq
    unfold statusLookup resolveToken
    rw [find?_append_first _ l1 s l2 ?_ ?_]
    · intro x hx
      have := hall x hx
      simp only [Bool.or_eq_false_iff, beq_eq_false_iff_ne, ne_eq]
      exact this
    · simpa using hpa
  · intro hnone
    unfold statusLookup resolveToken
    have : servers.find? (fun s => s.name == token || toString s.id == token) = none := by
      rw [List.find?_eq_none]
      intro s hsmem
      simp only [Bool.or_eq_true, beq_iff_eq]
      push_neg
      exact hnone s hsmem
    rw [this]

theorem statusLookup_resolution_spec_witness :
    statusLookup [⟨1, "Hypixel", "mc.hypixel.net", none⟩] "play.example.org"
      = LookupRoute.direct "play.example.org" :=
  (statusLookup_resolution_spec [⟨1, "Hypixel", "mc.hypixel.net", none⟩]
    "play.example.org").2.2 (by decide)

/-- Claim C2 counterexample: the token `"hypixel"` differs from the
configured display name `"Hypixel"` only in case, so the claimed
case-insensitive stage (2) would resolve it through the registry; the code's
case-sensitive comparison misses it and routes the token as a raw address. -/
theorem statusLookup_case_sensitive_cex :
    jsToLowerCase "hypixel" = jsToLowerCase "Hypixel" ∧
    statusLookup [⟨1, "Hypixel", "mc.hypixel.net", none⟩] "hypixel"
      = LookupRoute.direct "hypixel" ∧
    LookupRoute.direct "hypixel"
      ≠ LookupRoute.registry ⟨1, "Hypixel", "mc.hypixel.net", none⟩ := by
  refine ⟨by decide, rfl, by decide⟩

/-! ## Power controller (`minekuaiApiRequest` in `src/src/index.ts`,
lines 101-142, and the `重启` composite command, lines 169-196)

The HTTP POST to `/servers/:id/power` is abstracted by an oracle giving the
outcome of each attempt.  The retry loop `for attempt = 1..maxRetries` is
modelled by structural recursion over the attempt list `[1..maxRetries]`. -/

structure MinekuaiSettings where
  apiUrl : String
  apiKey : String
deriving DecidableEq, Repr

/-- The structured content of the errors `minekuaiApiRequest` throws; the
thrown `Error` message is `powerErrorMessage` of this value. -/
inductive PowerError where
  | unconfiguredKey : PowerError
  | unconfiguredUrl : PowerError
  | exhausted : Nat → Option String → PowerError
deriving DecidableEq, Repr

def powerErrorMessage : PowerError → String
  | PowerError.unconfiguredKey => "麦块API密钥未配置"
  | PowerError.unconfiguredUrl => "麦块API地址未配置"
  | PowerError.exhausted n lastErr =>
    "麦块API请求失败，已重试" ++ toString n ++ "次: " ++ lastErr.getD "undefined"

/-- Observable behaviour of one `minekuaiApiRequest` call: how many attempts
were made, the backoff delays slept between attempts (ms), and the outcome. -/
structure RetryTrace where
  attemptsMade : Nat
  delays : List Nat
  result : Except PowerError String
deriving Repr

/-- The retry loop body over the remaining attempt numbers; `lastErr` is the
`lastError` variable.  On a failed attempt that is not the last
(`attempt < maxRetries`, i.e. the remaining list is nonempty) the loop
sleeps `1000 * attempt` before the next attempt. -/
def retryGo (oracle : Nat → Except String String) (maxRetries : Nat) :
    List Nat → Option String → RetryTrace
  | [], lastErr => ⟨0, [], Except.error (PowerError.exhausted maxRetries lastErr)⟩
  | attempt :: restAttempts, _ =>
    match oracle attempt with
    | Except.ok resp => ⟨1, [], Except.ok resp⟩
    | Except.error e =>
      let rest := retryGo oracle maxRetries restAttempts (some e)
      ⟨rest.attemptsMade + 1,
       (if restAttempts.isEmpty then [] else [1000 * attempt]) ++ rest.delays,
       rest.result⟩

def minekuaiApiRequest (cfg : MinekuaiSettings) (oracle : Nat → Except String String)
    (maxRetries : Nat) : RetryTrace :=
  if cfg.apiKey = "" then ⟨0, [], Except.error PowerError.unconfiguredKey⟩
  else if cfg.apiUrl = "" then ⟨0, [], Except.error PowerError.unconfiguredUrl⟩
  else retryGo oracle maxRetries (List.range' 1 maxRetries) none

theorem retryGo_attemptsMade_le (oracle : Nat → Except String String) (maxRetries : Nat)
    (attempts : List Nat) (lastErr : Option String) :
    (retryGo oracle maxRetries attempts lastErr).attemptsMade ≤ attempts.length := by
  induction attempts generalizing lastErr with
  | nil => simp [retryGo]
  | cons a rest ih =>
    simp only [retryGo, List.length_cons]
    cases oracle a with
    | ok r => simp
    | error e =>
      simpa using Nat.add_le_add_right (ih (some e)) 1

theorem minekuaiApiRequest_attemptsMade_le (cfg : MinekuaiSettings)
    (oracle : Nat → Except String String) (maxRetries : Nat) :
    (minekuaiApiRequest cfg oracle maxRetries).attemptsMade ≤ maxRetries := by
  unfold minekuaiApiRequest
  by_cases hk : cfg.apiKey = ""
  · simp [hk]
  by_cases hu : cfg.apiUrl = ""
  · simp [hk, hu]
  simpa [hk, hu, List.length_range'] using
    retryGo_attemptsMade_le oracle maxRetries (List.range' 1 maxRetries) none

theorem minekuaiApiRequest_first_ok (cfg : MinekuaiSettings)
    (oracle : Nat → Except String String) (r : String)
    (hk : cfg.apiKey ≠ "") (hu : cfg.apiUrl ≠ "")
    (h1 : oracle 1 = Except.ok r) :
    minekuaiApiRequest cfg oracle 3 = ⟨1, [], Except.ok r⟩ := by
  have hr : List.range' 1 3 = [1, 2, 3] := rfl
  simp [minekuaiApiRequest, hk, hu, hr, retryGo, h1]

theorem minekuaiApiRequest_third_ok (cfg : MinekuaiSettings)
    (oracle : Nat → Except String String) (e1 e2 : String) (r : String)
    (hk : cfg.apiKey ≠ "") (hu : cfg.apiUrl ≠ "")
    (h1 : oracle 1 = Except.error e1) (h2 : oracle 2 = Except.error e2)
    (h3 : oracle 3 = Except.ok r) :
    minekuaiApiRequest cfg oracle 3 = ⟨3, [1000, 2000], Except.ok r⟩ := by
  have hr : List.range' 1 3 = [1, 2, 3] := rfl
  simp [minekuaiApiRequest, hk, hu, hr, retryGo, h1, h2, h3]

theorem minekuaiApiRequest_always_fails (cfg : MinekuaiSettings)
    (oracle : Nat → Except String String) (e1 e2 e3 : String)
    (hk : cfg.apiKey ≠ "") (hu : cfg.apiUrl ≠ "")
    (h1 : oracle 1 = Except.error e1) (h2 : oracle 2 = Except.error e2)
    (h3 : oracle 3 = Except.error e3) :
    minekuaiApiRequest cfg oracle 3
      = ⟨3, [1000, 2000], Except.error (PowerError.exhausted 3 (some e3))⟩ := by
  have hr : List.range' 1 3 = [1, 2, 3] := rfl
  simp [minekuaiApiRequest, hk, hu, hr, retryGo, h1, h2, h3]

/-- Claim C4: a power-control call makes at most `maxRetries` (default 3)
sequential attempts; the waits between attempts are `1000 * attemptNumber`
(linear backoff); an upstream failing twice then succeeding yields success
on the third attempt after delays `[1000, 2000]`; an upstream that always
fails exhausts all 3 attempts and fails with an error carrying the last
underlying error. -/
theorem minekuaiApiRequest_retry_spec (cfg : MinekuaiSettings)
    (oracle : Nat → Except String String)
    (hk : cfg.apiKey ≠ "") (hu : cfg.apiUrl ≠ "") :
    (∀ maxRetries : Nat,
      (minekuaiApiRequest cfg oracle maxRetries).attemptsMade ≤ maxRetries) ∧
    (∀ e1 e2 r, oracle 1 = Except.error e1 → oracle 2 = Except.error e2 →
      oracle 3 = Except.ok r →
      minekuaiApiRequest cfg oracle 3 = ⟨3, [1000, 2000], Except.ok r⟩) ∧
    (∀ e1 e2 e3, oracle 1 = Except.error e1 → oracle 2 = Except.error e2 →
      oracle 3 = Except.error e3 →
      minekuaiApiRequest cfg oracle 3
        = ⟨3, [1000, 2000], Except.error (PowerError.exhausted 3 (some e3))⟩) := by
  refine ⟨fun m => minekuaiApiRequest_attemptsMade_le cfg oracle m, ?_, ?_⟩
  · intro e1 e2 r h1 h2 h3
    exact minekuaiApiRequest_third_ok cfg oracle e1 e2 r hk hu h1 h2 h3
  · intro e1 e2 e3 h1 h2 h3
    exact minekuaiApiRequest_always_fails cfg oracle e1 e2 e3 hk hu h1 h2 h3

theorem minekuaiApiRequest_retry_spec_witness :
    minekuaiApiRequest ⟨"https://minekuai.com/api/client", "key123"⟩
        (fun n => if n < 3 then Except.error "HTTP 500" else Except.ok "ack") 3
      = ⟨3, [1000, 2000], Except.ok "ack"⟩ :=
  (minekuaiApiRequest_retry_spec ⟨"https://minekuai.com/api/client", "key123"⟩
    (fun n => if n < 3 then Except.error "HTTP 500" else Except.ok "ack")
    (by decide) (by decide)).2.1 "HTTP 500" "HTTP 500" "ack" rfl rfl rfl

/-! ### The composite `重启` command (lines 169-196): `restart`, a fixed
1000 ms pause, then `kill`, each through `minekuaiApiRequest` with 3
attempts; the first failure is caught and reported. -/

/-- Observable behaviour of one `重启` invocation (main path: server found
and `minekuaiInstanceId` configured): the signals sent with the number of
attempts each consumed, the fixed pauses between steps, and the chat reply. -/
structure SeqTrace where
  calls : List (String × Nat)
  interDelays : List Nat
  reply : String
deriving Repr

/-- The `ctx.command('重启')` action body.  `oracle step attempt` is the
outcome of the power POST for step 0 (`restart`) / step 1 (`kill`). -/
def restartAction (id : Nat) (serverName : String) (cfg : MinekuaiSettings)
    (oracle : Nat → Nat → Except String String) : SeqTrace :=
  let r1 := minekuaiApiRequest cfg (oracle 0) 3
  match r1.result with
  | Except.error e =>
    ⟨[("restart", r1.attemptsMade)], [],
     "❌ 重启服务器 " ++ serverName ++ " 失败: " ++ powerErrorMessage e⟩
  | Except.ok _ =>
    let r2 := minekuaiApiRequest cfg (oracle 1) 3
    match r2.result with
    | Except.error e =>
      ⟨[("restart", r1.attemptsMade), ("kill", r2.attemptsMade)], [1000],
       "❌ 重启服务器 " ++ serverName ++ " 失败: " ++ powerErrorMessage e⟩
    | Except.ok _ =>
      ⟨[("restart", r1.attemptsMade), ("kill", r2.attemptsMade)], [1000],
       "✅ 已发送重启指令到服务器 " ++ serverName ++ " (ID: " ++ toString id ++ ")"⟩

/-- Claim C1 (amended): the composite restart sends the ordered signals
`restart` then `kill` (there is no `start` step) with a fixed 1000 ms pause
between them, each step running the power call with its own full 3-attempt
retry policy; if the first step exhausts its retries the second is never
attempted and the sequence aborts without rolling anything back, reporting
the last underlying error (without naming the failed step). -/
theorem restartAction_steps_spec (id : Nat) (serverName : String)
    (cfg : MinekuaiSettings) (oracle : Nat → Nat → Except String String)
    (hk : cfg.apiKey ≠ "") (hu : cfg.apiUrl ≠ "") :
    (((restartAction id serverName cfg oracle).calls.map Prod.fst = ["restart"] ∧
      (restartAction id serverName cfg oracle).interDelays = []) ∨
      ((restartAction id serverName cfg oracle).calls.map Prod.fst = ["restart", "kill"] ∧
      (restartAction id serverName cfg oracle).interDelays = [1000])) ∧
    (∀ sig n, (sig, n) ∈ (restartAction id serverName cfg oracle).calls → n ≤ 3) ∧
    (∀ e1 e2 e3, oracle 0 1 = Except.error e1 → oracle 0 2 = Except.error e2 →
      oracle 0 3 = Except.error e3 →
      restartAction id serverName cfg oracle
        = ⟨[("restart", 3)], [],
           "❌ 重启服务器 " ++ serverName ++ " 失败: "
             ++ powerErrorMessage (PowerError.exhausted 3 (some e3))⟩) ∧
    (∀ r e1 e2 e3, oracle 0 1 = Except.ok r → oracle 1 1 = Except.error e1 →
      oracle 1 2 = Except.error e2 → oracle 1 3 = Except.error e3 →
      restartAction id serverName cfg oracle
        = ⟨[("restart", 1), ("kill", 3)], [1000],
           "❌ 重启服务器 " ++ serverName ++ " 失败: "
             ++ powerErrorMessage (PowerError.exhausted 3 (some e3))⟩) := by
  refine ⟨?_, ?_, ?_, ?_⟩
  · cases h1 : (minekuaiApiRequest cfg (oracle 0) 3).result with
    | error e => left; constructor <;> simp [restartAction, h1]
    | ok v =>
      cases h2 : (minekuaiApiRequest cfg (oracle 1) 3).result with
      | error e => right; constructor <;> simp [restartAction, h1, h2]
      | ok w => right; constructor <;> simp [restartAction, h1, h2]
  · intro sig n hmem
    have hb1 := minekuaiApiRequest_attemptsMade_le cfg (oracle 0) 3
    have hb2 := minekuaiApiRequest_attemptsMade_le cfg (oracle 1) 3
    cases h1 : (minekuaiApiRequest cfg (oracle 0) 3).result with
    | error e =>
      simp only [restartAction, h1] at hmem
      simp only [List.mem_singleton, Prod.mk.injEq] at hmem
      omega
    | ok v =>
      cases h2 : (minekuaiApiRequest cfg (oracle 1) 3).result with
      | error e =>
        simp only [restartAction, h1, h2] at hmem
        simp only [List.mem_cons, List.mem_singleton, Prod.mk.injEq,
          List.not_mem_nil, or_false] at hmem
        rcases hmem with ⟨-, hn⟩ | ⟨-, hn⟩ <;> omega
      | ok w =>
        simp only [restartAction, h1, h2] at hmem
        simp only [List.mem_cons, List.mem_singleton, Prod.mk.injEq,
          List.not_mem_nil, or_false] at hmem
        rcases hmem with ⟨-, hn⟩ | ⟨-, hn⟩ <;> omega
  · intro e1 e2 e3 h1 h2 h3
    have hfail := minekuaiApiRequest_always_fails cfg (oracle 0) e1 e2 e3 hk hu h1 h2 h3
    simp [restartAction, hfail]
  · intro r e1 e2 e3 h0 h1 h2 h3
    have hfirst := minekuaiApiRequest_first_ok cfg (oracle 0) r hk hu h0
    have hfail := minekuaiApiRequest_always_fails cfg (oracle 1) e1 e2 e3 hk hu h1 h2 h3
    simp [restartAction, hfirst, hfail]

theorem restartAction_steps_spec_witness :
    restartAction 1 "Hypixel" ⟨"https://minekuai.com/api/client", "key123"⟩
        (fun step _ => if step = 0 then Except.ok "ack" else Except.error "HTTP 500")
      = ⟨[("restart", 1), ("kill", 3)], [1000],
         "❌ 重启服务器 " ++ "Hypixel" ++ " 失败: "
           ++ powerErrorMessage (PowerError.exhausted 3 (some "HTTP 500"))⟩ :=
  (restartAction_steps_spec 1 "Hypixel" ⟨"https://minekuai.com/api/client", "key123"⟩
    (fun step _ => if step = 0 then Except.ok "ack" else Except.error "HTTP 500")
    (by decide) (by decide)).2.2.2 "ack" "HTTP 500" "HTTP 500" "HTTP 500" rfl rfl rfl rfl

/-- Claim C1 counterexample: on a fully successful run the composite restart
sends the signals `["restart", "kill"]` — not the claimed
`["stop", "kill", "start"]`, and no `start` signal is ever sent; moreover
the failure report for a step-0 exhaustion and a step-1 exhaustion with the
same underlying error is the identical string, so the report does not
identify the `kill` step. -/
theorem restartAction_not_stop_kill_start :
    (restartAction 1 "Hypixel" ⟨"https://minekuai.com/api/client", "key123"⟩
        (fun _ _ => Except.ok "ack")).calls.map Prod.fst = ["restart", "kill"] ∧
    (["restart", "kill"] : List String) ≠ ["stop", "kill", "start"] ∧
    "start" ∉ (restartAction 1 "Hypixel" ⟨"https://minekuai.com/api/client", "key123"⟩
        (fun _ _ => Except.ok "ack")).calls.map Prod.fst ∧
    (restartAction 1 "Hypixel" ⟨"https://minekuai.com/api/client", "key123"⟩
        (fun _ _ => Except.error "HTTP 500")).reply
      = (restartAction 1 "Hypixel" ⟨"https://minekuai.com/api/client", "key123"⟩
        (fun step _ => if step = 0 then Except.ok "ack" else Except.error "HTTP 500")).reply := by
  refine ⟨rfl, by decide, by decide, rfl⟩

/-! ## Temporary API-provider override
(`ctx.command('mcstatus')` action, `src/src/index.ts` lines 206-226) -/

/-- The mutable `config.apiSettings.apiProvider` cell the action touches. -/
structure ApiState where
  apiProvider : String
deriving DecidableEq, Repr

/-- The `options.api` branch of the `mcstatus` action: on a valid provider
name the action saves the original provider, installs the lowercased
override, runs `handleMcStatusCommand` (which sees the overridden state and
may return or throw), and restores the original in a `finally`. -/
def mcstatusActionApiOverride (st : ApiState) (optApi : String)
    (handler : ApiState → Except String String) : Except String String × ApiState :=
  let tempProvider := jsToLowerCase optApi
  if tempProvider = "mcstatus" ∨ tempProvider = "lazy" then
    let originalProvider := st.apiProvider
    let result := handler { apiProvider := tempProvider }
    (result, { apiProvider := originalProvider })
  else
    (Except.ok "❌ 无效的API提供商，可选: mcstatus, lazy", st)

/-- Claim C10: with a valid `-a` override the action runs the query against
the overridden provider and the configured `apiProvider` is restored to its
original value afterwards — the handler outcome is passed through whether it
returned or threw, so the override never persists past the invocation. -/
theorem apiOverride_restores_spec (st : ApiState) (optApi : String)
    (handler : ApiState → Except String String)
    (h : jsToLowerCase optApi = "mcstatus" ∨ jsToLowerCase optApi = "lazy") :
    (mcstatusActionApiOverride st optApi handler).2 = st ∧
    (mcstatusActionApiOverride st optApi handler).1
      = handler { apiProvider := jsToLowerCase optApi } := by
  cases st with
  | mk orig => simp [mcstatusActionApiOverride, h]

theorem apiOverride_restores_spec_witness :
    (mcstatusActionApiOverride ⟨"mcstatus"⟩ "LAZY"
        (fun _ => Except.error "query failed")).2 = ⟨"mcstatus"⟩ :=
  (apiOverride_restores_spec ⟨"mcstatus"⟩ "LAZY" (fun _ => Except.error "query failed")
    (Or.inr (by decide))).1

end MinecraftSearch
